import Mathlib

/-!
Verification of the playback-queue and transport core of `amp.py`
(`MusicPlayer` plus its queue construction and metadata extraction),
as a shallow embedding in Lean.

Modelling conventions:
* Python strings are sequences of code points, embedded as `List Char`
  (`PyStr`); a Lean string literal `"x"` enters the model as `"x".data`.
  Python's lexicographic string comparison is then the lexicographic
  order on `List Char`.
* Python `int` indices are `Int`; Python `%` on a positive modulus agrees
  with `Int.emod`.
* Python list indexing (`xs[i]`, which wraps one level of negative index
  and otherwise raises `IndexError`) is `pyGet`.
* Methods that can raise return `Except PyError PState`; an exception
  aborts the method (Qt swallows it afterwards, which no claim depends on).
* The GUI is reduced to the pieces the transport logic reads or that the
  claims mention: the play/pause button icon and the command log sent to
  the VLC engine.  Pure rendering (labels, artwork, status bar) is omitted.
* `mutagen` is an oracle in `Env`: per path it either raises, yields a
  falsy/tagless object, or yields an ordered tag list.
* `os.listdir` results and the folder chosen in the dialog are inputs;
  `os.path.join` is modelled as separator concatenation.
-/

/-- A Python string: its sequence of code points. -/
abbrev PyStr := List Char

/-- `s.lower()`. -/
def pyLower (s : PyStr) : PyStr := s.map Char.toLower

/-- `s.strip()`: remove leading and trailing whitespace. -/
def pyStrip (s : PyStr) : PyStr :=
  ((s.dropWhile Char.isWhitespace).reverse.dropWhile Char.isWhitespace).reverse

/-- `s.split('/')`. -/
def pySplitSlash (s : PyStr) : List PyStr := s.splitOnP (fun c => c == '/')

/-- A mutagen tag value: `str(value)` and, for `APIC` frames, `.data`. -/
structure TagVal where
  text : PyStr
  data : List Nat
deriving DecidableEq, Repr

/-- Outcome of `MutagenFile(path)` for one path. -/
inductive MutagenResult where
  /-- the constructor raised; caught by the outer `except` -/
  | raises : MutagenResult
  /-- `not audio or not audio.tags` -/
  | notAudio : MutagenResult
  /-- a tag dictionary, iterated in insertion order -/
  | tags (ts : List (PyStr × TagVal)) : MutagenResult

/-- External world: whether `mutagen` imported, what it returns per path,
and `os.path.isfile`. -/
structure Env where
  mutagenAvailable : Bool
  read : PyStr → MutagenResult
  isfile : PyStr → Bool

/-- The metadata dictionary built by `extractMetadata`. -/
structure Meta where
  title : Option PyStr
  artist : Option PyStr
  album : Option PyStr
  year : Option PyStr
  artwork : Option (List Nat)
  track : Option PyStr
deriving DecidableEq, Repr

/-- The all-`None` metadata dictionary. -/
def emptyMeta : Meta := ⟨none, none, none, none, none, none⟩

/-- One iteration of the tag loop in `extractMetadata` (the if/elif chain
keyed on the tag name's prefix; a later matching tag overwrites). -/
def applyTag (m : Meta) (tag : PyStr) (v : TagVal) : Meta :=
  if ("TIT2".data).isPrefixOf tag then { m with title := some v.text }
  else if ("TPE1".data).isPrefixOf tag then { m with artist := some v.text }
  else if ("TALB".data).isPrefixOf tag then { m with album := some v.text }
  else if ("TDRC".data).isPrefixOf tag || ("TYER".data).isPrefixOf tag then
    { m with year := some v.text }
  else if ("APIC".data).isPrefixOf tag then { m with artwork := some v.data }
  else if ("TRCK".data).isPrefixOf tag then
    { m with track := some (pyStrip ((pySplitSlash v.text).headD [])) }
  else m

/-- `MusicPlayer.extractMetadata`: total; every failure path returns the
all-`None` dictionary. -/
def extractMetadata (env : Env) (file_path : PyStr) : Meta :=
  if env.mutagenAvailable = false then emptyMeta
  else
    match env.read file_path with
    | .raises => emptyMeta
    | .notAudio => emptyMeta
    | .tags ts => ts.foldl (fun m p => applyTag m p.1 p.2) emptyMeta

/-- Python `int(s)` on a decimal string: surrounding whitespace allowed,
optional sign, then one or more ASCII digits; anything else raises
`ValueError` (`none`). -/
def pyInt (s : PyStr) : Option Int :=
  let t := pyStrip s
  let sd : Int × PyStr :=
    match t with
    | '-' :: rest => (-1, rest)
    | '+' :: rest => (1, rest)
    | _ => (1, t)
  if !sd.2.isEmpty && sd.2.all Char.isDigit then
    some (sd.1 * (sd.2.foldl (fun acc c => acc * 10 + (c.toNat - 48)) (0 : Nat) : Nat))
  else none

/-- `f.lower().endswith(('.mp3', '.wav', '.ogg', '.flac'))`. -/
def isAudioName (f : PyStr) : Bool :=
  (".mp3".data).isSuffixOf (pyLower f) || (".wav".data).isSuffixOf (pyLower f) ||
  (".ogg".data).isSuffixOf (pyLower f) || (".flac".data).isSuffixOf (pyLower f)

/-- `os.path.join(folder, f)` for a plain file name. -/
def pyJoin (folder f : PyStr) : PyStr := folder ++ '/' :: f

/-- The candidate files of `open_folder`: immediate directory entries with
a supported audio extension, joined to the folder path, in listing order. -/
def audioCandidates (folder : PyStr) (listing : List PyStr) : List PyStr :=
  (listing.filter isAudioName).map (fun f => pyJoin folder f)

/-- The track-number loop of `open_folder`: walk the candidates in order,
reading each one's `track` tag; stop with `none` (`all_have_track = False`)
at the first candidate whose tag is absent, empty, or not `int`-parsable,
else return the `track_info` association list. -/
def collectTracks (env : Env) : List PyStr → Option (List (PyStr × Int))
  | [] => some []
  | fp :: rest =>
    match (extractMetadata env fp).track with
    | none => none
    | some t =>
      if t = [] then none
      else
        match pyInt t with
        | none => none
        | some n => (collectTracks env rest).map (fun ti => (fp, n) :: ti)

/-- `track_info[fp]` lookup (every candidate is a key when the sort by
track number is used). -/
def trackOf (ti : List (PyStr × Int)) (fp : PyStr) : Int :=
  (ti.lookup fp).getD 0

/-- The sorted queue `open_folder` builds: Python's `sorted` is a stable
sort, embedded as the stable `List.insertionSort`; keyed by track number
when every candidate has one, else plain lexical order on the full
paths. -/
def open_folder_queue (env : Env) (folder : PyStr) (listing : List PyStr) : List PyStr :=
  let files := audioCandidates folder listing
  match collectTracks env files with
  | some ti => files.insertionSort (fun a b => trackOf ti a ≤ trackOf ti b)
  | none => files.insertionSort (fun a b => a ≤ b)

/-- A command sent to the VLC engine. -/
inductive EngineCmd where
  | setMedia (p : PyStr) : EngineCmd
  | play : EngineCmd
  | pause : EngineCmd
  | stop : EngineCmd
deriving DecidableEq, Repr

/-- The icon currently on the play/pause button. -/
inductive Icon where
  | playIcon : Icon
  | pauseIcon : Icon
deriving DecidableEq, Repr

/-- A Python exception escaping a method. -/
inductive PyError where
  | indexError : PyError
  | valueError : PyError
  | attributeError (name : PyStr) : PyError
deriving DecidableEq, Repr

/-- The transport-relevant mutable state of a `MusicPlayer` instance. -/
structure PState where
  folderAudioFiles : List PyStr
  current_index : Int
  loop_mode : Nat
  shuffle : Bool
  trackMetadata : List (Int × Meta)
  playButton : Icon
  cmds : List EngineCmd
deriving DecidableEq, Repr

/-- Result of one method call. -/
abbrev PRes := Except PyError PState

deriving instance DecidableEq for Except

/-- State right after `__init__`. -/
def initState : PState :=
  { folderAudioFiles := [], current_index := 0, loop_mode := 0, shuffle := false,
    trackMetadata := [], playButton := .playIcon, cmds := [] }

/-- Append one engine command to the log. -/
def emit (s : PState) (c : EngineCmd) : PState :=
  { s with cmds := s.cmds ++ [c] }

/-- Python list indexing `l[i]`: one level of negative-index wrap, else
`IndexError`. -/
def pyGet (l : List PyStr) (i : Int) : Except PyError PyStr :=
  let j : Int := if i < 0 then i + l.length else i
  if 0 ≤ j ∧ j < l.length then .ok (l.getD j.toNat []) else .error .indexError

/-- `dict[k] = v`: overwrite in place if the key exists, else append. -/
def dictSet (k : Int) (v : Meta) (d : List (Int × Meta)) : List (Int × Meta) :=
  if d.any (fun p => p.1 == k) then d.map (fun p => if p.1 == k then (k, v) else p)
  else d ++ [(k, v)]

/-- `MusicPlayer.updateTrackInfo`: reads the current file (raising
`IndexError` when `current_index` is out of range), extracts its metadata
and caches it under the current index.  Label/artwork rendering omitted. -/
def updateTrackInfo (env : Env) (s : PState) : PRes :=
  match pyGet s.folderAudioFiles s.current_index with
  | .error e => .error e
  | .ok current_file =>
    .ok { s with trackMetadata :=
            dictSet s.current_index (extractMetadata env current_file) s.trackMetadata }

/-- `MusicPlayer.handle_media_ended`.  `r` is the value `random.randint`
would return in the shuffle branch (in range whenever that call succeeds);
`randint(0, -1)` on an empty queue raises `ValueError`. -/
def handle_media_ended (env : Env) (r : Nat) (s : PState) : PRes :=
  if s.loop_mode = 2 then
    match pyGet s.folderAudioFiles s.current_index with
    | .error e => .error e
    | .ok f => updateTrackInfo env (emit (emit s (.setMedia f)) .play)
  else if s.shuffle then
    if s.folderAudioFiles.length = 0 then .error .valueError
    else
      let s1 := { s with current_index := (r : Int) }
      match pyGet s1.folderAudioFiles s1.current_index with
      | .error e => .error e
      | .ok f => updateTrackInfo env (emit (emit s1 (.setMedia f)) .play)
  else
    let s1 := { s with current_index := s.current_index + 1 }
    if s1.current_index ≥ s1.folderAudioFiles.length then
      if s1.loop_mode = 1 then
        let s2 := { s1 with current_index := 0 }
        match pyGet s2.folderAudioFiles s2.current_index with
        | .error e => .error e
        | .ok f => updateTrackInfo env (emit (emit s2 (.setMedia f)) .play)
      else
        let s2 := { s1 with current_index := s1.current_index - 1 }
        .ok { emit s2 .stop with playButton := .playIcon }
    else
      match pyGet s1.folderAudioFiles s1.current_index with
      | .error e => .error e
      | .ok f => updateTrackInfo env (emit (emit s1 (.setMedia f)) .play)

/-- `MusicPlayer.next_track`: no-op on an empty queue, else advance
`(current_index + 1) % len`, load, play, show the pause icon. -/
def next_track (env : Env) (s : PState) : PRes :=
  if s.folderAudioFiles = [] then .ok s
  else
    let s1 := { s with current_index :=
                  (s.current_index + 1) % (s.folderAudioFiles.length : Int) }
    match pyGet s1.folderAudioFiles s1.current_index with
    | .error e => .error e
    | .ok f =>
      updateTrackInfo env
        { emit (emit s1 (.setMedia f)) .play with playButton := .pauseIcon }

/-- `MusicPlayer.previous_track`: symmetric to `next_track` with `- 1`. -/
def previous_track (env : Env) (s : PState) : PRes :=
  if s.folderAudioFiles = [] then .ok s
  else
    let s1 := { s with current_index :=
                  (s.current_index - 1) % (s.folderAudioFiles.length : Int) }
    match pyGet s1.folderAudioFiles s1.current_index with
    | .error e => .error e
    | .ok f =>
      updateTrackInfo env
        { emit (emit s1 (.setMedia f)) .play with playButton := .pauseIcon }

/-- `MusicPlayer.open_folder`.  `folder` is what the directory dialog
returned (`""` when cancelled); `listing` is `os.listdir(folder)`.
In the empty-queue branch the source, after stopping the engine and
restoring the play icon, calls `self.resetTrackInfo()` — a method the
class never defines — so that branch raises `AttributeError`. -/
def open_folder (env : Env) (folder : PyStr) (listing : List PyStr) (s : PState) : PRes :=
  if folder = [] then .ok s
  else
    let s1 := { s with folderAudioFiles := [], trackMetadata := [] }
    let sorted_files := open_folder_queue env folder listing
    let s2 := { s1 with folderAudioFiles := sorted_files }
    if sorted_files = [] then
      .error (.attributeError "resetTrackInfo".data)
    else
      let s3 := { s2 with current_index := 0 }
      updateTrackInfo env (emit s3 (.setMedia (sorted_files.getD 0 [])))

/-- `MusicPlayer.open_file`.  `file_path` is what the file dialog returned
(`""` when cancelled).  Replaces the queue with the single file; note the
metadata cache is not cleared here. -/
def open_file (env : Env) (file_path : PyStr) (s : PState) : PRes :=
  if file_path = [] then .ok s
  else
    let s1 := { s with folderAudioFiles := [file_path], current_index := 0 }
    updateTrackInfo env
      { emit (emit s1 (.setMedia file_path)) .play with playButton := .pauseIcon }

/-- `MusicPlayer.onFileTreeDoubleClicked` on a concrete path (`jumpTo`):
for an existing file with a supported extension, select its first queue
position or append it, then load and play; `updateTrackInfo` runs in every
case (it is outside the `if` in the source). -/
def onFileTreeDoubleClicked (env : Env) (file_path : PyStr) (s : PState) : PRes :=
  if env.isfile file_path && isAudioName file_path then
    let found := s.folderAudioFiles.findIdx? (fun q => q == file_path)
    let idx : Int :=
      match found with
      | some i => (i : Int)
      | none => (s.folderAudioFiles.length : Int)
    let s1 :=
      match found with
      | some _ => s
      | none => { s with folderAudioFiles := s.folderAudioFiles ++ [file_path] }
    let s2 := { s1 with current_index := idx }
    let s3 := { emit (emit s2 (.setMedia file_path)) .play with playButton := .pauseIcon }
    let s4 := { s3 with trackMetadata :=
                  dictSet idx (extractMetadata env file_path) s3.trackMetadata }
    updateTrackInfo env s4
  else
    updateTrackInfo env s

/-- The transport transitions named by the spec's state machine. -/
inductive Op where
  | next : Op
  | previous : Op
  | jumpTo (path : PyStr) : Op
  | mediaEnded (r : Nat) : Op
  | loadQueue (folder : PyStr) (listing : List PyStr) : Op
  | loadSingle (path : PyStr) : Op

/-- Dispatch one transition to the method that implements it. -/
def step (env : Env) : Op → PState → PRes
  | .next => next_track env
  | .previous => previous_track env
  | .jumpTo p => onFileTreeDoubleClicked env p
  | .mediaEnded r => handle_media_ended env r
  | .loadQueue folder listing => open_folder env folder listing
  | .loadSingle p => open_file env p

/-- The cursor invariant: whenever the queue is non-empty the index is in
range. -/
def inv (s : PState) : Prop :=
  s.folderAudioFiles ≠ [] →
    0 ≤ s.current_index ∧ s.current_index < s.folderAudioFiles.length

/-- `random.randint(0, n-1)` returns a value `< n` whenever it is called on
a non-empty queue; other transitions carry no randomness. -/
def randOK : Op → PState → Prop
  | .mediaEnded r, s => s.folderAudioFiles ≠ [] → (r : Int) < s.folderAudioFiles.length
  | _, _ => True

/-- `k` consecutive `next_track` calls. -/
def nextIter (env : Env) : Nat → PState → PRes
  | 0, s => .ok s
  | k + 1, s =>
    match next_track env s with
    | .error e => .error e
    | .ok s1 => nextIter env k s1

/-- A fixed environment for concrete evaluations: `mutagen` missing, every
path an existing file. -/
def env0 : Env := ⟨false, fun _ => .raises, fun _ => true⟩

/-- A stale cache entry from a previous queue. -/
def staleMeta : Meta := { emptyMeta with title := some "stale".data }

/-- A state whose two-track queue has metadata cached for indices 0 and 1. -/
def preState : PState :=
  { folderAudioFiles := ["/old/a.mp3".data, "/old/b.mp3".data], current_index := 0,
    loop_mode := 0, shuffle := false,
    trackMetadata := [(0, emptyMeta), (1, staleMeta)],
    playButton := .playIcon, cmds := [] }

/-- The state `open_file` actually produces from `preState`. -/
def postState : PState :=
  { folderAudioFiles := ["/new/c.mp3".data], current_index := 0,
    loop_mode := 0, shuffle := false,
    trackMetadata := [(0, emptyMeta), (1, staleMeta)],
    playButton := .pauseIcon,
    cmds := [.setMedia "/new/c.mp3".data, .play] }

/-- A concrete two-track state for witnesses. -/
def twoTrackState : PState :=
  { folderAudioFiles := ["/m/a.mp3".data, "/m/b.mp3".data], current_index := 0,
    loop_mode := 0, shuffle := false, trackMetadata := [],
    playButton := .playIcon, cmds := [] }

/-- The state `next_track` produces from `twoTrackState` under `env0`. -/
def steppedState : PState :=
  { folderAudioFiles := ["/m/a.mp3".data, "/m/b.mp3".data], current_index := 1,
    loop_mode := 0, shuffle := false, trackMetadata := [(1, emptyMeta)],
    playButton := .pauseIcon, cmds := [.setMedia "/m/b.mp3".data, .play] }

/-- An environment in which every file carries an `int`-parsable `TRCK`
tag: `/m/b.mp3` has track 2, everything else track 1. -/
def envTagged : Env :=
  ⟨true,
    fun p =>
      if p = "/m/b.mp3".data then .tags [("TRCK".data, ⟨"2".data, []⟩)]
      else .tags [("TRCK".data, ⟨"1".data, []⟩)],
    fun _ => true⟩

/-- The `track_info` list `collectTracks` produces for the witness. -/
def tiW : List (PyStr × Int) := [("/m/b.mp3".data, 2), ("/m/a.mp3".data, 1)]

/-- The state `open_folder` produces from `preState` for folder `/m` with
listing `[a.mp3]` under `env0`. -/
def folderedState : PState :=
  { folderAudioFiles := ["/m/a.mp3".data], current_index := 0,
    loop_mode := 0, shuffle := false, trackMetadata := [(0, emptyMeta)],
    playButton := .playIcon, cmds := [.setMedia "/m/a.mp3".data] }

example : pyInt " 12 ".data = some 12 := by decide
example : pyInt "12a".data = none := by decide
example : isAudioName "A.MP3".data = true := by decide
example : isAudioName "notes.txt".data = false := by decide
example : next_track env0 initState = .ok initState := by decide

/-! ### Basic lemmas about the helper operations -/

theorem pyGet_eq_ok {l : List PyStr} {i : Int} (h0 : 0 ≤ i) (h1 : i < l.length) :
    pyGet l i = .ok (l.getD i.toNat []) := by
  have hi : ¬ i < 0 := not_lt.mpr h0
  simp [pyGet, hi, h0, h1]

theorem pyGet_err_of_empty {i : Int} : pyGet [] i = .error .indexError := by
  have h : ∀ j : Int, ¬ (0 ≤ j ∧ j < (([] : List PyStr).length : Int)) := by
    intro j hj
    simp only [List.length_nil, Nat.cast_zero] at hj
    omega
  simp only [pyGet]
  rw [if_neg (h _)]

theorem updateTrackInfo_eq (env : Env) (s : PState) (h0 : 0 ≤ s.current_index)
    (h1 : s.current_index < s.folderAudioFiles.length) :
    updateTrackInfo env s =
      .ok { s with
            trackMetadata := dictSet s.current_index
              (extractMetadata env (s.folderAudioFiles.getD s.current_index.toNat []))
              s.trackMetadata } := by
  rw [updateTrackInfo, pyGet_eq_ok h0 h1]

theorem updateTrackInfo_ok_shape (env : Env) {s s' : PState}
    (h : updateTrackInfo env s = .ok s') :
    s'.folderAudioFiles = s.folderAudioFiles ∧ s'.current_index = s.current_index ∧
      s'.loop_mode = s.loop_mode ∧ s'.shuffle = s.shuffle ∧
      s'.playButton = s.playButton ∧ s'.cmds = s.cmds := by
  unfold updateTrackInfo at h
  cases hp : pyGet s.folderAudioFiles s.current_index <;> rw [hp] at h
  · cases h
  · cases h
    exact ⟨rfl, rfl, rfl, rfl, rfl, rfl⟩

/-! ### C10, C7, C1 and the C4 counterexample -/

/-- **C10**: on an empty queue `next_track` and `previous_track` are total
no-ops: they succeed and return the state unchanged (same queue, index,
mode flags, icon and engine-command log). -/
theorem next_previous_noop_on_empty (env : Env) (s : PState)
    (h : s.folderAudioFiles = []) :
    next_track env s = .ok s ∧ previous_track env s = .ok s := by
  constructor <;> simp [next_track, previous_track, h]

/-- Witness for `next_previous_noop_on_empty` at the start state. -/
theorem next_previous_noop_on_empty_witness :
    initState.folderAudioFiles = [] ∧
      (next_track env0 initState = .ok initState ∧
        previous_track env0 initState = .ok initState) :=
  ⟨rfl, next_previous_noop_on_empty env0 initState rfl⟩

/-- **C7**: `extractMetadata` is a total function (its Lean type is
`Meta`, not an exception monad), and on every failure — `mutagen` absent,
`MutagenFile(path)` raising, or a falsy/tagless result — it returns the
metadata value whose six fields are all empty. -/
theorem extractMetadata_failure_all_none (env : Env) (path : PyStr)
    (h : env.mutagenAvailable = false ∨ env.read path = .raises ∨
         env.read path = .notAudio) :
    extractMetadata env path = emptyMeta := by
  unfold extractMetadata
  rcases h with h | h | h
  · simp [h]
  · rw [h]
    split <;> rfl
  · rw [h]
    split <;> rfl

/-- Witness for `extractMetadata_failure_all_none`: `env0` has no
`mutagen`. -/
theorem extractMetadata_failure_all_none_witness :
    (env0.mutagenAvailable = false ∨ env0.read "bad.mp3".data = .raises ∨
        env0.read "bad.mp3".data = .notAudio) ∧
      extractMetadata env0 "bad.mp3".data = emptyMeta :=
  ⟨Or.inl rfl, extractMetadata_failure_all_none env0 "bad.mp3".data (Or.inl rfl)⟩

/-- **C1** (code bug): opening a folder with no supported audio files does
empty the queue and stop the engine, but then the source calls
`self.resetTrackInfo()`, a method `MusicPlayer` never defines, so the
operation raises `AttributeError` instead of completing. -/
theorem open_folder_empty_folder_raises :
    open_folder env0 "/music".data ["notes.txt".data] initState =
      .error (.attributeError "resetTrackInfo".data) := by decide




/-- **C4** counterexample: `open_file` replaces the queue but the entry
cached at index 1 for the previous queue survives, so the cache does not
"hold no entries cached for the previous Queue". -/
theorem open_file_keeps_stale_cache_entry :
    open_file env0 "/new/c.mp3".data preState = .ok postState ∧
      (1, staleMeta) ∈ postState.trackMetadata ∧
      postState.folderAudioFiles = ["/new/c.mp3".data] := by decide

/-- **C4** (amended): `open_folder` clears the per-index cache (after a
successful open it holds exactly the entry for index 0 written by
`updateTrackInfo`), but `open_file` does not clear it: it only overwrites
index 0, so entries cached for the previous queue at other indices
survive. -/
theorem cache_cleared_only_by_open_folder (env : Env) (folder path : PyStr)
    (listing : List PyStr) (s s1 s2 : PState) :
    (folder ≠ [] → open_folder env folder listing s = .ok s1 →
       s1.trackMetadata =
         [(0, extractMetadata env (s1.folderAudioFiles.getD 0 []))]) ∧
    (path ≠ [] → open_file env path s = .ok s2 →
       s2.trackMetadata = dictSet 0 (extractMetadata env path) s.trackMetadata) := by
  constructor
  · intro hf h
    simp only [open_folder] at h
    rw [if_neg hf] at h
    split at h
    · cases h
    · next hne =>
      rw [updateTrackInfo_eq] at h
      · cases h
        simp [dictSet, emit]
      · simp [emit]
      · simpa [emit] using List.length_pos.mpr hne
  · intro hp h
    simp only [open_file] at h
    rw [if_neg hp] at h
    rw [updateTrackInfo_eq] at h
    · cases h
      simp [dictSet, emit]
    · simp [emit]
    · simp [emit]

/-! ### Characterizing `next_track` and `previous_track` on a non-empty queue -/

theorem next_track_eq (env : Env) (s : PState) (h : s.folderAudioFiles ≠ []) :
    next_track env s =
      .ok { s with
            current_index := (s.current_index + 1) % (s.folderAudioFiles.length : Int),
            playButton := .pauseIcon,
            cmds := s.cmds ++
              [.setMedia (s.folderAudioFiles.getD
                  (((s.current_index + 1) % (s.folderAudioFiles.length : Int)).toNat) []),
                .play],
            trackMetadata := dictSet
              ((s.current_index + 1) % (s.folderAudioFiles.length : Int))
              (extractMetadata env (s.folderAudioFiles.getD
                (((s.current_index + 1) % (s.folderAudioFiles.length : Int)).toNat) []))
              s.trackMetadata } := by
  have hn : 0 < (s.folderAudioFiles.length : Int) := by
    exact_mod_cast List.length_pos.mpr h
  have hj0 : 0 ≤ (s.current_index + 1) % (s.folderAudioFiles.length : Int) :=
    Int.emod_nonneg _ (by omega)
  have hj1 : (s.current_index + 1) % (s.folderAudioFiles.length : Int) <
      (s.folderAudioFiles.length : Int) := Int.emod_lt_of_pos _ hn
  simp only [next_track, if_neg h, pyGet_eq_ok hj0 hj1]
  rw [updateTrackInfo_eq]
  · simp [emit]
  · exact hj0
  · exact hj1

theorem previous_track_eq (env : Env) (s : PState) (h : s.folderAudioFiles ≠ []) :
    previous_track env s =
      .ok { s with
            current_index := (s.current_index - 1) % (s.folderAudioFiles.length : Int),
            playButton := .pauseIcon,
            cmds := s.cmds ++
              [.setMedia (s.folderAudioFiles.getD
                  (((s.current_index - 1) % (s.folderAudioFiles.length : Int)).toNat) []),
                .play],
            trackMetadata := dictSet
              ((s.current_index - 1) % (s.folderAudioFiles.length : Int))
              (extractMetadata env (s.folderAudioFiles.getD
                (((s.current_index - 1) % (s.folderAudioFiles.length : Int)).toNat) []))
              s.trackMetadata } := by
  have hn : 0 < (s.folderAudioFiles.length : Int) := by
    exact_mod_cast List.length_pos.mpr h
  have hj0 : 0 ≤ (s.current_index - 1) % (s.folderAudioFiles.length : Int) :=
    Int.emod_nonneg _ (by omega)
  have hj1 : (s.current_index - 1) % (s.folderAudioFiles.length : Int) <
      (s.folderAudioFiles.length : Int) := Int.emod_lt_of_pos _ hn
  simp only [previous_track, if_neg h, pyGet_eq_ok hj0 hj1]
  rw [updateTrackInfo_eq]
  · simp [emit]
  · exact hj0
  · exact hj1

theorem next_track_proj (env : Env) (s : PState) (h : s.folderAudioFiles ≠ []) :
    ∃ s1, next_track env s = .ok s1 ∧ s1.folderAudioFiles = s.folderAudioFiles ∧
      s1.current_index = (s.current_index + 1) % (s.folderAudioFiles.length : Int) ∧
      s1.loop_mode = s.loop_mode ∧ s1.shuffle = s.shuffle :=
  ⟨_, next_track_eq env s h, rfl, rfl, rfl, rfl⟩

theorem nextIter_ok (env : Env) (k : Nat) : ∀ s : PState, s.folderAudioFiles ≠ [] →
    ∃ s', nextIter env k s = .ok s' ∧ s'.folderAudioFiles = s.folderAudioFiles ∧
      s'.current_index = if k = 0 then s.current_index
        else (s.current_index + k) % (s.folderAudioFiles.length : Int) := by
  induction k with
  | zero => exact fun s _ => ⟨s, rfl, rfl, by simp⟩
  | succ k ih =>
    intro s h
    obtain ⟨s1, e1, f1, i1, _, _⟩ := next_track_proj env s h
    obtain ⟨s', h1, h2, h3⟩ := ih s1 (by rw [f1]; exact h)
    refine ⟨s', ?_, by rw [h2, f1], ?_⟩
    · show (match next_track env s with
        | Except.error e => (Except.error e : PRes)
        | Except.ok t => nextIter env k t) = .ok s'
      rw [e1]
      exact h1
    · rw [h3, i1, f1, if_neg (Nat.succ_ne_zero k)]
      by_cases hk : k = 0
      · subst hk
        simp
      · rw [if_neg hk, Int.emod_add_emod]
        congr 1
        push_cast
        ring


/-- **C8**: every `next_track` on a non-empty queue succeeds and sets
`current_index := (current_index + 1) % len` — with no hypothesis on
`loop_mode` or `shuffle` — and `N` consecutive `next_track` calls on a
queue of length `N` return `current_index` to its starting value. -/
theorem next_wrap_cycle (env : Env) (s : PState) (hq : s.folderAudioFiles ≠ [])
    (h0 : 0 ≤ s.current_index)
    (h1 : s.current_index < (s.folderAudioFiles.length : Int)) :
    (∀ t : PState, t.folderAudioFiles ≠ [] →
       ∃ t', next_track env t = .ok t' ∧
         t'.current_index = (t.current_index + 1) % (t.folderAudioFiles.length : Int) ∧
         t'.folderAudioFiles = t.folderAudioFiles) ∧
    ∃ s', nextIter env s.folderAudioFiles.length s = .ok s' ∧
      s'.current_index = s.current_index ∧
      s'.folderAudioFiles = s.folderAudioFiles := by
  constructor
  · intro t ht
    obtain ⟨t', e, f, i, _, _⟩ := next_track_proj env t ht
    exact ⟨t', e, i, f⟩
  · obtain ⟨s', hA, hB, hC⟩ := nextIter_ok env s.folderAudioFiles.length s hq
    refine ⟨s', hA, ?_, hB⟩
    have hlen : s.folderAudioFiles.length ≠ 0 := by
      have := List.length_pos.mpr hq
      omega
    rw [hC, if_neg hlen]
    have h2 : (s.current_index + (s.folderAudioFiles.length : Int)) %
        (s.folderAudioFiles.length : Int) =
        s.current_index % (s.folderAudioFiles.length : Int) := by
      have h3 := Int.add_mul_emod_self_left s.current_index
        (s.folderAudioFiles.length : Int) 1
      simp only [mul_one] at h3
      exact h3
    rw [h2]
    exact Int.emod_eq_of_lt h0 h1

/-- Witness for `next_wrap_cycle` on a concrete two-track queue. -/
theorem next_wrap_cycle_witness :
    twoTrackState.folderAudioFiles ≠ [] ∧ 0 ≤ twoTrackState.current_index ∧
      twoTrackState.current_index < (twoTrackState.folderAudioFiles.length : Int) ∧
      ((∀ t : PState, t.folderAudioFiles ≠ [] →
          ∃ t', next_track env0 t = .ok t' ∧
            t'.current_index = (t.current_index + 1) % (t.folderAudioFiles.length : Int) ∧
            t'.folderAudioFiles = t.folderAudioFiles) ∧
        ∃ s', nextIter env0 twoTrackState.folderAudioFiles.length twoTrackState = .ok s' ∧
          s'.current_index = twoTrackState.current_index ∧
          s'.folderAudioFiles = twoTrackState.folderAudioFiles) :=
  ⟨by decide, by decide, by decide,
    next_wrap_cycle env0 twoTrackState (by decide) (by decide) (by decide)⟩

/-- **C9**: on a non-empty queue with `current_index` in range,
`next_track` followed by `previous_track` (no other mutation in between)
restores `current_index` and leaves the queue unchanged. -/
theorem previous_inverts_next (env : Env) (s : PState) (hq : s.folderAudioFiles ≠ [])
    (h0 : 0 ≤ s.current_index)
    (h1 : s.current_index < (s.folderAudioFiles.length : Int)) :
    ∃ s1 s2, next_track env s = .ok s1 ∧ previous_track env s1 = .ok s2 ∧
      s2.current_index = s.current_index ∧
      s2.folderAudioFiles = s.folderAudioFiles := by
  refine ⟨_, _, next_track_eq env s hq, previous_track_eq env _ hq, ?_, rfl⟩
  show (((s.current_index + 1) % (s.folderAudioFiles.length : Int)) - 1) %
      (s.folderAudioFiles.length : Int) = s.current_index
  have e1 : (((s.current_index + 1) % (s.folderAudioFiles.length : Int)) - 1) %
      (s.folderAudioFiles.length : Int) =
      ((s.current_index + 1) - 1) % (s.folderAudioFiles.length : Int) := by
    conv_lhs => rw [Int.sub_emod, Int.emod_emod_of_dvd _ dvd_rfl]
    rw [← Int.sub_emod]
  rw [e1, add_sub_cancel_right]
  exact Int.emod_eq_of_lt h0 h1

/-- Witness for `previous_inverts_next` on a concrete two-track queue. -/
theorem previous_inverts_next_witness :
    twoTrackState.folderAudioFiles ≠ [] ∧ 0 ≤ twoTrackState.current_index ∧
      twoTrackState.current_index < (twoTrackState.folderAudioFiles.length : Int) ∧
      ∃ s1 s2, next_track env0 twoTrackState = .ok s1 ∧
        previous_track env0 s1 = .ok s2 ∧
        s2.current_index = twoTrackState.current_index ∧
        s2.folderAudioFiles = twoTrackState.folderAudioFiles :=
  ⟨by decide, by decide, by decide,
    previous_inverts_next env0 twoTrackState (by decide) (by decide) (by decide)⟩

/-- **C2**: with `shuffle = false` and `loop_mode ≠ 2` (One) on a
non-empty queue, `handle_media_ended` increments the index and plays the
next track when it exists; from the last index it either wraps to 0 and
plays (`loop_mode = 1`, All) or restores the last valid index, stops the
engine and shows the play icon (any other `loop_mode`). -/
theorem handle_media_ended_sequential (env : Env) (r : Nat) (s : PState)
    (hq : s.folderAudioFiles ≠ [])
    (h0 : 0 ≤ s.current_index)
    (_h1 : s.current_index < (s.folderAudioFiles.length : Int))
    (hsh : s.shuffle = false) (hlm : s.loop_mode ≠ 2) :
    (s.current_index + 1 < (s.folderAudioFiles.length : Int) →
       ∃ s', handle_media_ended env r s = .ok s' ∧
         s'.current_index = s.current_index + 1 ∧
         s'.folderAudioFiles = s.folderAudioFiles ∧
         s'.cmds = s.cmds ++
           [.setMedia (s.folderAudioFiles.getD (s.current_index + 1).toNat []), .play] ∧
         s'.playButton = s.playButton) ∧
    (s.current_index + 1 = (s.folderAudioFiles.length : Int) → s.loop_mode = 1 →
       ∃ s', handle_media_ended env r s = .ok s' ∧
         s'.current_index = 0 ∧
         s'.folderAudioFiles = s.folderAudioFiles ∧
         s'.cmds = s.cmds ++ [.setMedia (s.folderAudioFiles.getD 0 []), .play]) ∧
    (s.current_index + 1 = (s.folderAudioFiles.length : Int) → s.loop_mode ≠ 1 →
       ∃ s', handle_media_ended env r s = .ok s' ∧
         s'.current_index = s.current_index ∧
         s'.folderAudioFiles = s.folderAudioFiles ∧
         s'.cmds = s.cmds ++ [.stop] ∧
         s'.playButton = .playIcon ∧
         s'.trackMetadata = s.trackMetadata) := by
  have hlm2 : ¬ s.loop_mode = 2 := hlm
  have hshu : ¬ (s.shuffle = true) := by simp [hsh]
  have hn : 0 < (s.folderAudioFiles.length : Int) := by
    exact_mod_cast List.length_pos.mpr hq
  refine ⟨?_, ?_, ?_⟩
  · intro hlt
    have hb0 : (0 : Int) ≤ s.current_index + 1 := by omega
    have hge : ¬ (s.current_index + 1 ≥ (s.folderAudioFiles.length : Int)) := by omega
    simp only [handle_media_ended]
    rw [if_neg hlm2, if_neg hshu, if_neg hge]
    simp only [pyGet_eq_ok hb0 hlt]
    rw [updateTrackInfo_eq]
    · exact ⟨_, rfl, by simp [emit], by simp [emit], by simp [emit], by simp [emit]⟩
    · exact hb0
    · exact hlt
  · intro heq hl1
    have hge : s.current_index + 1 ≥ (s.folderAudioFiles.length : Int) := by omega
    simp only [handle_media_ended]
    rw [if_neg hlm2, if_neg hshu, if_pos hge, if_pos hl1]
    simp only [pyGet_eq_ok (le_refl (0 : Int)) hn]
    rw [updateTrackInfo_eq]
    · exact ⟨_, rfl, by simp [emit], by simp [emit], by simp [emit]⟩
    · exact le_refl 0
    · exact hn
  · intro heq hl1
    have hge : s.current_index + 1 ≥ (s.folderAudioFiles.length : Int) := by omega
    have hl1' : ¬ (s.loop_mode = 1) := hl1
    simp only [handle_media_ended]
    rw [if_neg hlm2, if_neg hshu, if_pos hge, if_neg hl1']
    exact ⟨_, rfl, by simp [emit], by simp [emit], by simp [emit], by simp [emit],
      by simp [emit]⟩

/-- Witness for `handle_media_ended_sequential`: single-track queue,
`loop_mode = 0`, so the third branch applies with the index staying 0. -/
theorem handle_media_ended_sequential_witness :
    twoTrackState.folderAudioFiles ≠ [] ∧ 0 ≤ twoTrackState.current_index ∧
      twoTrackState.current_index < (twoTrackState.folderAudioFiles.length : Int) ∧
      twoTrackState.shuffle = false ∧ twoTrackState.loop_mode ≠ 2 ∧
      twoTrackState.current_index + 1 < (twoTrackState.folderAudioFiles.length : Int) ∧
      ∃ s', handle_media_ended env0 0 twoTrackState = .ok s' ∧
        s'.current_index = twoTrackState.current_index + 1 ∧
        s'.folderAudioFiles = twoTrackState.folderAudioFiles ∧
        s'.cmds = twoTrackState.cmds ++
          [.setMedia (twoTrackState.folderAudioFiles.getD
            (twoTrackState.current_index + 1).toNat []), .play] ∧
        s'.playButton = twoTrackState.playButton :=
  ⟨by decide, by decide, by decide, by decide, by decide, by decide,
    (handle_media_ended_sequential env0 0 twoTrackState (by decide) (by decide)
      (by decide) (by decide) (by decide)).1 (by decide)⟩

/-- **C6**: double-clicking an existing file with a supported audio
extension selects its (first) queue position when the path is already in
the queue — the queue itself unchanged — and otherwise appends it (queue
grows by exactly one) and selects the new last position; in both cases the
file is loaded and played. -/
theorem jumpTo_selects_or_appends (env : Env) (path : PyStr) (s : PState)
    (hf : env.isfile path = true) (hext : isAudioName path = true) :
    (path ∈ s.folderAudioFiles →
       ∃ s', onFileTreeDoubleClicked env path s = .ok s' ∧
         s'.folderAudioFiles = s.folderAudioFiles ∧
         s'.current_index = (s.folderAudioFiles.findIdx (fun q => q == path) : Int) ∧
         s'.folderAudioFiles.getD s'.current_index.toNat [] = path ∧
         s'.cmds = s.cmds ++ [.setMedia path, .play]) ∧
    (path ∉ s.folderAudioFiles →
       ∃ s', onFileTreeDoubleClicked env path s = .ok s' ∧
         s'.folderAudioFiles = s.folderAudioFiles ++ [path] ∧
         s'.folderAudioFiles.length = s.folderAudioFiles.length + 1 ∧
         s'.current_index = (s.folderAudioFiles.length : Int) ∧
         s'.cmds = s.cmds ++ [.setMedia path, .play]) := by
  have hguard : (env.isfile path && isAudioName path) = true := by simp [hf, hext]
  constructor
  · intro hmem
    rcases hfind : s.folderAudioFiles.findIdx? (fun q => q == path) with _ | i
    · exfalso
      rw [List.findIdx?_eq_none_iff] at hfind
      have := hfind path hmem
      simp at this
    · obtain ⟨hi, hidx⟩ := List.findIdx?_eq_some_iff_findIdx_eq.mp hfind
      subst hidx
      have hget : s.folderAudioFiles.getD
          (s.folderAudioFiles.findIdx (fun q => q == path)) [] = path := by
        rw [List.getD_eq_getElem _ _ hi]
        have hp := @List.findIdx_getElem _ (fun q => q == path)
          s.folderAudioFiles hi
        simpa using hp
      simp only [onFileTreeDoubleClicked]
      rw [if_pos hguard]
      simp only [hfind]
      rw [updateTrackInfo_eq]
      · refine ⟨_, rfl, by simp [emit], by simp [emit], ?_, by simp [emit]⟩
        simp only [emit]
        simpa using hget
      · simp [emit]
      · simp only [emit]
        show ((s.folderAudioFiles.findIdx (fun q => q == path) : Nat) : Int) < _
        exact_mod_cast hi
  · intro hmem
    rcases hfind : s.folderAudioFiles.findIdx? (fun q => q == path) with _ | i
    · simp only [onFileTreeDoubleClicked]
      rw [if_pos hguard]
      simp only [hfind]
      rw [updateTrackInfo_eq]
      · exact ⟨_, rfl, by simp [emit], by simp [emit], by simp [emit], by simp [emit]⟩
      · simp [emit]
      · simp [emit]
    · exfalso
      obtain ⟨hi, hidx⟩ := List.findIdx?_eq_some_iff_findIdx_eq.mp hfind
      subst hidx
      have hp := @List.findIdx_getElem _ (fun q => q == path)
        s.folderAudioFiles hi
      rw [beq_iff_eq] at hp
      exact hmem (hp ▸ List.getElem_mem hi)

/-- Witness for `jumpTo_selects_or_appends`, applying it to a path already
in the queue and to a path not yet in the queue. -/
theorem jumpTo_selects_or_appends_witness :
    env0.isfile "/m/a.mp3".data = true ∧ isAudioName "/m/a.mp3".data = true ∧
      "/m/a.mp3".data ∈ twoTrackState.folderAudioFiles ∧
      "/new/c.mp3".data ∉ twoTrackState.folderAudioFiles ∧
      (∃ s', onFileTreeDoubleClicked env0 "/m/a.mp3".data twoTrackState = .ok s' ∧
        s'.folderAudioFiles = twoTrackState.folderAudioFiles ∧
        s'.current_index = (twoTrackState.folderAudioFiles.findIdx
          (fun q => q == "/m/a.mp3".data) : Int) ∧
        s'.folderAudioFiles.getD s'.current_index.toNat [] = "/m/a.mp3".data ∧
        s'.cmds = twoTrackState.cmds ++ [.setMedia "/m/a.mp3".data, .play]) ∧
      (∃ s', onFileTreeDoubleClicked env0 "/new/c.mp3".data twoTrackState = .ok s' ∧
        s'.folderAudioFiles = twoTrackState.folderAudioFiles ++ ["/new/c.mp3".data] ∧
        s'.folderAudioFiles.length = twoTrackState.folderAudioFiles.length + 1 ∧
        s'.current_index = (twoTrackState.folderAudioFiles.length : Int) ∧
        s'.cmds = twoTrackState.cmds ++ [.setMedia "/new/c.mp3".data, .play]) :=
  ⟨rfl, by decide, by decide, by decide,
    (jumpTo_selects_or_appends env0 "/m/a.mp3".data twoTrackState rfl
      (by decide)).1 (by decide),
    (jumpTo_selects_or_appends env0 "/new/c.mp3".data twoTrackState rfl
      (by decide)).2 (by decide)⟩

/-! ### Preservation of the cursor invariant (C5) -/

theorem inv_next_track (env : Env) {s s' : PState} (hs : inv s)
    (h : next_track env s = .ok s') : inv s' := by
  by_cases hq : s.folderAudioFiles = []
  · unfold next_track at h
    rw [if_pos hq] at h
    cases h
    exact hs
  · rw [next_track_eq env s hq] at h
    cases h
    intro _
    have hn : 0 < (s.folderAudioFiles.length : Int) := by
      exact_mod_cast List.length_pos.mpr hq
    exact ⟨Int.emod_nonneg _ (by omega), Int.emod_lt_of_pos _ hn⟩

theorem inv_previous_track (env : Env) {s s' : PState} (hs : inv s)
    (h : previous_track env s = .ok s') : inv s' := by
  by_cases hq : s.folderAudioFiles = []
  · unfold previous_track at h
    rw [if_pos hq] at h
    cases h
    exact hs
  · rw [previous_track_eq env s hq] at h
    cases h
    intro _
    have hn : 0 < (s.folderAudioFiles.length : Int) := by
      exact_mod_cast List.length_pos.mpr hq
    exact ⟨Int.emod_nonneg _ (by omega), Int.emod_lt_of_pos _ hn⟩

theorem inv_open_file (env : Env) {path : PyStr} {s s' : PState} (hs : inv s)
    (h : open_file env path s = .ok s') : inv s' := by
  simp only [open_file] at h
  split at h
  · cases h
    exact hs
  · obtain ⟨hf, hi, _⟩ := updateTrackInfo_ok_shape env h
    intro _
    rw [hf, hi]
    simp [emit]

theorem inv_open_folder (env : Env) {folder : PyStr} {listing : List PyStr}
    {s s' : PState} (hs : inv s)
    (h : open_folder env folder listing s = .ok s') : inv s' := by
  simp only [open_folder] at h
  split at h
  · cases h
    exact hs
  · split at h
    · cases h
    · next hne =>
      obtain ⟨hf, hi, _⟩ := updateTrackInfo_ok_shape env h
      intro _
      rw [hf, hi]
      refine ⟨by simp [emit], ?_⟩
      have hp := List.length_pos.mpr hne
      simp only [emit]
      exact_mod_cast hp

theorem inv_jumpTo (env : Env) {path : PyStr} {s s' : PState} (hs : inv s)
    (h : onFileTreeDoubleClicked env path s = .ok s') : inv s' := by
  simp only [onFileTreeDoubleClicked] at h
  split at h
  · rcases hfind : s.folderAudioFiles.findIdx? (fun q => q == path) with _ | i
    · simp only [hfind] at h
      obtain ⟨hf, hi, _⟩ := updateTrackInfo_ok_shape env h
      intro _
      rw [hf, hi]
      simp only [emit, List.length_append, List.length_cons, List.length_nil]
      refine ⟨by positivity, ?_⟩
      push_cast
      omega
    · simp only [hfind] at h
      obtain ⟨hf, hi, _⟩ := updateTrackInfo_ok_shape env h
      obtain ⟨hlt, -⟩ := List.findIdx?_eq_some_iff_findIdx_eq.mp hfind
      intro _
      rw [hf, hi]
      simp only [emit]
      exact ⟨by positivity, by exact_mod_cast hlt⟩
  · obtain ⟨hf, hi, _⟩ := updateTrackInfo_ok_shape env h
    intro hne
    rw [hf, hi]
    exact hs (by rwa [hf] at hne)

theorem inv_media_ended (env : Env) (r : Nat) {s s' : PState} (hs : inv s)
    (hr : s.folderAudioFiles ≠ [] → (r : Int) < s.folderAudioFiles.length)
    (h : handle_media_ended env r s = .ok s') : inv s' := by
  simp only [handle_media_ended] at h
  split at h
  · cases hp : pyGet s.folderAudioFiles s.current_index with
    | error e =>
      simp only [hp] at h
      exact Except.noConfusion h
    | ok f =>
      simp only [hp] at h
      obtain ⟨hf, hi, _⟩ := updateTrackInfo_ok_shape env h
      intro hne
      rw [hf, hi]
      simp only [emit]
      exact hs (by simpa [emit] using hf ▸ hne)
  · split at h
    · split at h
      · cases h
      · next hlen =>
        cases hp : pyGet s.folderAudioFiles (r : Int) with
        | error e =>
          simp only [hp] at h
          exact Except.noConfusion h
        | ok f =>
          simp only [hp] at h
          obtain ⟨hf, hi, _⟩ := updateTrackInfo_ok_shape env h
          intro _
          rw [hf, hi]
          simp only [emit]
          have hq : s.folderAudioFiles ≠ [] := by
            intro hc
            exact hlen (by simp [hc])
          exact ⟨by positivity, hr hq⟩
    · split at h
      · split at h
        · cases hp : pyGet s.folderAudioFiles (0 : Int) with
          | error e =>
          simp only [hp] at h
          exact Except.noConfusion h
          | ok f =>
            simp only [hp] at h
            obtain ⟨hf, hi, _⟩ := updateTrackInfo_ok_shape env h
            intro hne
            rw [hf, hi]
            simp only [emit]
            refine ⟨le_refl 0, ?_⟩
            have hq : s.folderAudioFiles ≠ [] := by
              simpa [emit] using hf ▸ hne
            exact_mod_cast List.length_pos.mpr hq
        · cases h
          intro hne
          have hq : s.folderAudioFiles ≠ [] := by
            simpa [emit] using hne
          obtain ⟨ha, hb⟩ := hs hq
          constructor
          · show (0 : Int) ≤ s.current_index + 1 - 1
            omega
          · show s.current_index + 1 - 1 < ((s.folderAudioFiles.length : Int))
            omega
      · next hlt =>
        cases hp : pyGet s.folderAudioFiles (s.current_index + 1) with
        | error e =>
          simp only [hp] at h
          exact Except.noConfusion h
        | ok f =>
          simp only [hp] at h
          obtain ⟨hf, hi, _⟩ := updateTrackInfo_ok_shape env h
          intro hne
          rw [hf, hi]
          simp only [emit]
          have hq : s.folderAudioFiles ≠ [] := by
            simpa [emit] using hf ▸ hne
          obtain ⟨ha, hb⟩ := hs hq
          constructor
          · omega
          · omega

/-- **C5**: each transport transition (`next`, `previous`, `jumpTo`,
`onMediaEnded` under every loop/shuffle combination, `loadQueue`,
`loadSingle`) that completes without an exception preserves the invariant
`queue ≠ [] → 0 ≤ currentIndex < |queue|`. -/
theorem step_preserves_cursor_invariant (env : Env) (op : Op) (s s' : PState)
    (hs : inv s) (hr : randOK op s) (h : step env op s = .ok s') : inv s' := by
  cases op with
  | next => exact inv_next_track env hs h
  | previous => exact inv_previous_track env hs h
  | jumpTo p => exact inv_jumpTo env hs h
  | mediaEnded r => exact inv_media_ended env r hs hr h
  | loadQueue folder listing => exact inv_open_folder env hs h
  | loadSingle p => exact inv_open_file env hs h


/-- Witness for `step_preserves_cursor_invariant` on a concrete `next`. -/
theorem step_preserves_cursor_invariant_witness :
    inv twoTrackState ∧ randOK Op.next twoTrackState ∧
      step env0 Op.next twoTrackState = .ok steppedState ∧ inv steppedState :=
  ⟨fun _ => ⟨by decide, by decide⟩, trivial, by decide,
    step_preserves_cursor_invariant env0 Op.next twoTrackState steppedState
      (fun _ => ⟨by decide, by decide⟩) trivial (by decide)⟩

/-! ### The queue built by `open_folder` (C3) -/

theorem pairwise_insertionSortKey {α : Type} (key : α → Int) (l : List α) :
    (l.insertionSort (fun a b => key a ≤ key b)).Pairwise (fun a b => key a ≤ key b) := by
  haveI : IsTotal α (fun a b => key a ≤ key b) := ⟨fun a b => le_total _ _⟩
  haveI : IsTrans α (fun a b => key a ≤ key b) := ⟨fun a b c hab hbc => le_trans hab hbc⟩
  exact List.sorted_insertionSort _ l

theorem pairwise_insertionSortLex (l : List PyStr) :
    (l.insertionSort (fun a b => a ≤ b)).Pairwise (fun a b : PyStr => a ≤ b) := by
  haveI : IsTotal PyStr (fun a b => a ≤ b) := ⟨fun a b => le_total _ _⟩
  haveI : IsTrans PyStr (fun a b => a ≤ b) := ⟨fun a b c hab hbc => le_trans hab hbc⟩
  exact List.sorted_insertionSort _ l

theorem insertionSort_filter_key {α : Type} (key : α → Int) (l : List α) (k : Int) :
    (l.insertionSort (fun a b => key a ≤ key b)).filter (fun x => key x == k) =
      l.filter (fun x => key x == k) := by
  have hsub : (l.filter (fun x => key x == k)).Sublist
      (l.insertionSort (fun a b => key a ≤ key b)) := by
    apply List.sublist_insertionSort
    · apply List.pairwise_of_forall_mem_list
      intro a ha b hb
      rw [List.mem_filter] at ha hb
      have h1 := ha.2
      have h2 := hb.2
      rw [beq_iff_eq] at h1 h2
      rw [h1, h2]
    · exact List.filter_sublist l
  have hsub2 : (l.filter (fun x => key x == k)).Sublist
      ((l.insertionSort (fun a b => key a ≤ key b)).filter (fun x => key x == k)) := by
    have h3 := List.Sublist.filter (fun x => key x == k) hsub
    have h4 : (l.filter (fun x => key x == k)).filter (fun x => key x == k) =
        l.filter (fun x => key x == k) := by
      rw [List.filter_eq_self]
      intro a ha
      exact (List.mem_filter.mp ha).2
    rwa [h4] at h3
  have hperm : ((l.insertionSort (fun a b => key a ≤ key b)).filter
      (fun x => key x == k)).Perm (l.filter (fun x => key x == k)) :=
    (List.perm_insertionSort _ l).filter _
  exact (hsub2.eq_of_length hperm.length_eq.symm).symm

/-- **C3**: the queue built by `open_folder` is a permutation of exactly
the immediate listing entries with a supported (case-insensitive)
extension; when every candidate has a present, `int`-parsable track
number (`collectTracks = some ti`) it is sorted by that number and, key
by key, preserves directory-listing order (the stable tie-break); when
any candidate lacks one (`collectTracks = none`) it is instead sorted in
lexicographic path order. -/
theorem open_folder_queue_spec (env : Env) (folder : PyStr) (listing : List PyStr) :
    (open_folder_queue env folder listing).Perm (audioCandidates folder listing) ∧
    (∀ p, p ∈ open_folder_queue env folder listing ↔
       ∃ f, f ∈ listing ∧ isAudioName f = true ∧ p = pyJoin folder f) ∧
    (∀ ti, collectTracks env (audioCandidates folder listing) = some ti →
       (open_folder_queue env folder listing).Pairwise
         (fun a b => trackOf ti a ≤ trackOf ti b) ∧
       ∀ k : Int,
         (open_folder_queue env folder listing).filter (fun p => trackOf ti p == k) =
           (audioCandidates folder listing).filter (fun p => trackOf ti p == k)) ∧
    (collectTracks env (audioCandidates folder listing) = none →
       (open_folder_queue env folder listing).Pairwise (fun a b : PyStr => a ≤ b)) := by
  have hq : open_folder_queue env folder listing =
      match collectTracks env (audioCandidates folder listing) with
      | some ti => (audioCandidates folder listing).insertionSort
          (fun a b => trackOf ti a ≤ trackOf ti b)
      | none => (audioCandidates folder listing).insertionSort
          (fun a b => a ≤ b) := rfl
  have hperm : (open_folder_queue env folder listing).Perm
      (audioCandidates folder listing) := by
    rw [hq]
    cases hct : collectTracks env (audioCandidates folder listing) with
    | some ti => exact List.perm_insertionSort _ _
    | none => exact List.perm_insertionSort _ _
  have hmem : ∀ p, p ∈ audioCandidates folder listing ↔
      ∃ f, f ∈ listing ∧ isAudioName f = true ∧ p = pyJoin folder f := by
    intro p
    simp only [audioCandidates, List.mem_map, List.mem_filter]
    constructor
    · rintro ⟨f, ⟨hf1, hf2⟩, hf3⟩
      exact ⟨f, hf1, hf2, hf3.symm⟩
    · rintro ⟨f, hf1, hf2, hf3⟩
      exact ⟨f, ⟨hf1, hf2⟩, hf3.symm⟩
  refine ⟨hperm, fun p => (hperm.mem_iff).trans (hmem p), ?_, ?_⟩
  · intro ti hct
    have hqe : open_folder_queue env folder listing =
        (audioCandidates folder listing).insertionSort
          (fun a b => trackOf ti a ≤ trackOf ti b) := by
      rw [hq, hct]
    rw [hqe]
    exact ⟨pairwise_insertionSortKey _ _, fun k => insertionSort_filter_key _ _ k⟩
  · intro hct
    have hqe : open_folder_queue env folder listing =
        (audioCandidates folder listing).insertionSort (fun a b => a ≤ b) := by
      rw [hq, hct]
    rw [hqe]
    exact pairwise_insertionSortLex _



/-- Witness for `open_folder_queue_spec`, exercising both ordering
branches at concrete inputs. -/
theorem open_folder_queue_spec_witness :
    collectTracks envTagged (audioCandidates "/m".data ["b.mp3".data, "a.mp3".data]) =
        some tiW ∧
      ((open_folder_queue envTagged "/m".data ["b.mp3".data, "a.mp3".data]).Pairwise
          (fun a b => trackOf tiW a ≤ trackOf tiW b) ∧
        (open_folder_queue envTagged "/m".data ["b.mp3".data, "a.mp3".data]).filter
            (fun p => trackOf tiW p == 1) =
          (audioCandidates "/m".data ["b.mp3".data, "a.mp3".data]).filter
            (fun p => trackOf tiW p == 1)) ∧
      collectTracks env0 (audioCandidates "/m".data ["b.mp3".data, "a.mp3".data]) = none ∧
      (open_folder_queue env0 "/m".data ["b.mp3".data, "a.mp3".data]).Pairwise
        (fun a b : PyStr => a ≤ b) :=
  ⟨by decide,
    ⟨((open_folder_queue_spec envTagged "/m".data ["b.mp3".data, "a.mp3".data]).2.2.1
        tiW (by decide)).1,
      ((open_folder_queue_spec envTagged "/m".data ["b.mp3".data, "a.mp3".data]).2.2.1
        tiW (by decide)).2 1⟩,
    by decide,
    (open_folder_queue_spec env0 "/m".data ["b.mp3".data, "a.mp3".data]).2.2.2
      (by decide)⟩

/-- Witness for `cache_cleared_only_by_open_folder` at concrete inputs. -/
theorem cache_cleared_only_by_open_folder_witness :
    ("/m".data : PyStr) ≠ [] ∧ ("/new/c.mp3".data : PyStr) ≠ [] ∧
      open_folder env0 "/m".data ["a.mp3".data] preState = .ok folderedState ∧
      open_file env0 "/new/c.mp3".data preState = .ok postState ∧
      folderedState.trackMetadata =
        [(0, extractMetadata env0 (folderedState.folderAudioFiles.getD 0 []))] ∧
      postState.trackMetadata =
        dictSet 0 (extractMetadata env0 "/new/c.mp3".data) preState.trackMetadata :=
  ⟨by decide, by decide, by decide, by decide,
    (cache_cleared_only_by_open_folder env0 "/m".data "/new/c.mp3".data
      ["a.mp3".data] preState folderedState postState).1 (by decide) (by decide),
    (cache_cleared_only_by_open_folder env0 "/m".data "/new/c.mp3".data
      ["a.mp3".data] preState folderedState postState).2 (by decide) (by decide)⟩
